import Mathlib

/-!
# Crypto-Raise frontend: the investor workflow of `src/App.jsx`

A shallow embedding of the `App` component: its session state, the derived
figures (`shares`, `needAsset`), the checkout gate (`canCheckout`) and the three
handlers (`startKyc`, `startAccredit`, `checkout`).

Conventions of the embedding.
* A JavaScript number is an IEEE-754 double; a finite one is carried as the rational
  it denotes. Each arithmetic operation computes the exact result and rounds it to the
  nearest double, a tie going to the even significand (`toDouble`). A result that is
  not a finite number (`NaN`, an infinity, from a zero divisor or an overflow) is
  `none`, and stays `none` through the operations that follow.
* `post` is an oracle from the request to `Option Response`: `none` is an awaited
  call that throws (rejected fetch, body that is not JSON), `some r` is the parsed
  body, a JSON object; reading a property it does not have gives `undefined`.
* A handler is run to its end (or to the first throwing call) as one step; it
  works on the values of the render in which it was triggered.
-/

namespace CryptoRaise

/-! ## JavaScript values -/

/-- The JavaScript values that the component stores or receives in a response. -/
inductive JSVal where
  | undefined
  | null
  | bool (b : Bool)
  | num (q : ℚ)
  | str (s : String)
  | other (json : String)
  deriving DecidableEq, Repr

/-- JavaScript truthiness (`ToBoolean`); `other` is an array or an object. -/
def truthy : JSVal → Bool
  | .undefined => false
  | .null => false
  | .bool b => b
  | .num q => decide (q ≠ 0)
  | .str s => decide (s ≠ "")
  | .other _ => true

/-- The operator `a && b`: `a` when `a` is falsy, else `b`. -/
def jsAnd (a b : JSVal) : JSVal := if truthy a then b else a

/-- The operator `a || b`: `a` when `a` is truthy, else `b`. -/
def jsOr (a b : JSVal) : JSVal := if truthy a then a else b

/-- The operator `!a`. -/
def jsNot (a : JSVal) : Bool := !truthy a

/-- The operator `v || d` where `v` is a number or `undefined` (`none`) and `d` a number. -/
def numOr (v : Option ℚ) (d : ℚ) : ℚ :=
  match v with
  | some q => if q = 0 then d else q
  | none => d

/-! ## Double arithmetic -/

/-- The nearest integer, a tie going to the even one. -/
def roundEven (t : ℚ) : ℤ :=
  if t - ⌊t⌋ < 1 / 2 then ⌊t⌋
  else if 1 / 2 < t - ⌊t⌋ then ⌊t⌋ + 1
  else if ⌊t⌋ % 2 = 0 then ⌊t⌋ else ⌊t⌋ + 1

/-- The binary exponent of the doubles next to `x`: `floor (log2 |x|)`, and `-1022` in
the subnormal range. -/
def binade (x : ℚ) : ℤ := max (Int.log 2 |x|) (-1022)

/-- The spacing of the doubles next to `x`: 53 significant bits. -/
def ulp (x : ℚ) : ℚ := 2 ^ (binade x - 52)

/-- The multiple of `ulp x` nearest to `x`, a tie going to the even multiple. -/
def roundD (x : ℚ) : ℚ := (roundEven (x / ulp x) : ℚ) * ulp x

/-- The double nearest to `x`; `none` when the rounded value is out of range (an
infinity). -/
def toDouble (x : ℚ) : Option ℚ :=
  if |roundD x| < 2 ^ (1024 : ℤ) then some (roundD x) else none

/-- The operator `a / b` on numbers; `none` when the result is not a finite number. -/
def numDiv (a b : ℚ) : Option ℚ := if b = 0 then none else toDouble (a / b)

/-- The operator `a * b` on numbers; `none` when the result is not a finite number. -/
def numMul (a b : ℚ) : Option ℚ := toDouble (a * b)

/-- The function `Math.floor`; the floor of a double is a double. -/
def Math_floor (x : ℚ) : ℤ := ⌊x⌋

/-- The function `Math.round`: the nearest integer, a tie going to the larger one; the
result is a double. -/
def Math_round (x : ℚ) : ℤ := ⌊x + 1 / 2⌋

/-- A number as `JSON.stringify` writes it: a non-finite number becomes `null`. -/
def numVal : Option ℚ → JSVal
  | some q => .num q
  | none => .null

/-! ## Static configuration (`App.jsx` lines 6, 16-24) -/

/-- The constant `quotes`, as a list of its own properties. -/
def quotes : List (String × ℚ) := [("BTCUSD", 68000), ("ETHUSD", 3600), ("USDCUSD", 1)]

/-- The property read `quotes[key]`; `none` is `undefined`. -/
def quotesAt (key : String) : Option ℚ := quotes.lookup key

structure WalletPolicy where
  assets : List String
  deriving DecidableEq, Repr

structure Issuer where
  name : String
  exemption : String
  pricePerShareUSD : ℚ
  minInvestmentUSD : ℚ
  walletPolicy : WalletPolicy
  deriving DecidableEq, Repr

/-- The state `issuer`; it has no setter, so it keeps its initial value. -/
def issuer : Issuer :=
  { name := "Acme Robotics, Inc."
    exemption := "Reg D 506(c)"
    pricePerShareUSD := 5
    minInvestmentUSD := 5000
    walletPolicy := { assets := ["USDC", "BTC", "ETH"] } }

/-! ## Session state (`App.jsx` lines 24-33) -/

structure Offer where
  id : String
  title : String
  deriving DecidableEq, Repr

structure Investor where
  name : String
  email : String
  country : String
  deriving DecidableEq, Repr

structure Kyc where
  passed : Bool
  ref : JSVal
  deriving DecidableEq, Repr

structure Acc where
  verified : Bool
  ref : JSVal
  deriving DecidableEq, Repr

structure Pay where
  created : Bool
  confirmed : Bool
  ref : JSVal
  deriving DecidableEq, Repr

structure State where
  offer : Offer
  investor : Investor
  asset : String
  amount : ℚ
  kyc : Kyc
  acc : Acc
  pay : Pay
  issued : Bool
  docLink : JSVal
  deriving DecidableEq, Repr

/-- The state of the first render. -/
def initialState : State :=
  { offer := { id := "seed-1", title := "Seed Round" }
    investor := { name := "", email := "", country := "US" }
    asset := "USDC"
    amount := issuer.minInvestmentUSD
    kyc := { passed := false, ref := .null }
    acc := { verified := false, ref := .null }
    pay := { created := false, confirmed := false, ref := .null }
    issued := false
    docLink := .null }

/-! ## Derived figures and the checkout condition (`App.jsx` lines 35-39, 114) -/

/-- The constant `price`. -/
def price : ℚ := issuer.pricePerShareUSD

/-- The expression `Math.floor((amount/price)*1000)/1000`. -/
def sharesOf (price amount : ℚ) : Option ℚ :=
  (numDiv amount price).bind fun q =>
    (numMul q 1000).bind fun y => numDiv (Math_floor y) 1000

/-- The constant `shares` of a render. -/
def shares (s : State) : Option ℚ := sharesOf price s.amount

/-- The expression `Math.round((amount/(quotes[asset+"USD"]||1))*1e8)/1e8`. -/
def needAssetOf (asset : String) (amount : ℚ) : Option ℚ :=
  (numDiv amount (numOr (quotesAt (asset ++ "USD")) 1)).bind fun x =>
    (numMul x 100000000).bind fun y => numDiv (Math_round y) 100000000

/-- The constant `needAsset` of a render. -/
def needAsset (s : State) : Option ℚ := needAssetOf s.asset s.amount

/-- The formula of the specification for the required asset amount,
`round((amount / q) * 1e8) / 1e8`, in the arithmetic of the program for a quote `q`. -/
def roundTo8 (amount q : ℚ) : Option ℚ :=
  (numDiv amount q).bind fun x =>
    (numMul x 100000000).bind fun y => numDiv (Math_round y) 100000000

/-- The constant `canCheckout`: a chain of `&&`, so a value that need not be a boolean. -/
def canCheckout (s : State) : JSVal :=
  jsAnd (jsAnd (jsAnd (jsAnd (.str s.investor.name) (.str s.investor.email))
    (.bool (decide (s.amount ≥ issuer.minInvestmentUSD)))) (.bool s.kyc.passed))
    (.bool s.acc.verified)

/-- The attribute `disabled={!canCheckout}` of the checkout button. -/
def checkoutDisabled (s : State) : Bool := jsNot (canCheckout s)

/-! ## The external API (`App.jsx` lines 41-44) -/

/-- The arguments of one call of `post`. -/
structure Request where
  path : String
  body : List (String × JSVal)
  deriving DecidableEq, Repr

/-- The parsed body of a response: a JSON object, as a list of its properties. -/
abbrev Response := List (String × JSVal)

/-- The property read `resp.key`; a property the object lacks reads as `undefined`. -/
def Response.prop (resp : Response) (key : String) : JSVal :=
  (List.lookup key resp).getD .undefined

/-- The external API as the handlers see it: `none` when the awaited `post` throws. -/
abbrev Api := Request → Option Response

/-! ## Input edits (`App.jsx` lines 86-106) -/

/-- The handler `onChange` of the name field. -/
def editName (s : State) (value : String) : State :=
  { s with investor := { s.investor with name := value } }

/-- The handler `onChange` of the email field. -/
def editEmail (s : State) (value : String) : State :=
  { s with investor := { s.investor with email := value } }

/-- The handler `onChange` of the asset selector. -/
def editAsset (s : State) (value : String) : State :=
  { s with asset := value }

/-- The handler `onChange` of the amount field, `setAmount(Number(e.target.value)||0)`;
`value` is `Number(e.target.value)`, `none` when that is `NaN`. -/
def editAmount (s : State) (value : Option ℚ) : State :=
  { s with amount := numOr value 0 }

/-! ## Handlers (`App.jsx` lines 46-66) -/

def kycRequest (s : State) : Request :=
  ⟨"kyc/start", [("email", .str s.investor.email), ("name", .str s.investor.name)]⟩

/-- The handler `startKyc`. -/
def startKyc (post : Api) (s : State) : State :=
  match post (kycRequest s) with
  | none => s
  | some resp => { s with kyc := { passed := true, ref := resp.prop "referenceId" } }

def accreditRequest (s : State) : Request :=
  ⟨"accredit/start", [("email", .str s.investor.email)]⟩

/-- The handler `startAccredit`. -/
def startAccredit (post : Api) (s : State) : State :=
  match post (accreditRequest s) with
  | none => s
  | some resp => { s with acc := { verified := true, ref := resp.prop "referenceId" } }

def paymentRequest (s : State) : Request :=
  ⟨"payments/checkout",
    [("asset", .str s.asset), ("amount", numVal (needAsset s)), ("amountUSD", .num s.amount),
     ("offerId", .str s.offer.id), ("email", .str s.investor.email)]⟩

def webhookRequest (c : Response) : Request :=
  ⟨"payments/webhook", [("txid", c.prop "referenceId"), ("confirmations", .num 12)]⟩

def issueRequest (s : State) : Request :=
  ⟨"captable/issue",
    [("investor", .str s.investor.email), ("shares", numVal (shares s)), ("price", .num price),
     ("offerId", .str s.offer.id)]⟩

def documentRequest (s : State) (w : Response) : Request :=
  ⟨"documents/compliance-pack",
    [("investor", .str s.investor.email), ("shares", numVal (shares s)), ("price", .num price),
     ("offerId", .str s.offer.id), ("txRef", w.prop "referenceId")]⟩

/-- The handler `checkout`: the state it leaves and the calls it made, in order. The
request bodies are built from the render `s` in which the button was pressed. -/
def checkout (post : Api) (s : State) : State × List Request :=
  let r1 := paymentRequest s
  match post r1 with
  | none => (s, [r1])
  | some c =>
    let r2 := webhookRequest c
    match post r2 with
    | none => (s, [r1, r2])
    | some w =>
      let s1 := { s with pay := { created := true, confirmed := true, ref := w.prop "referenceId" } }
      let r3 := issueRequest s
      match post r3 with
      | none => (s1, [r1, r2, r3])
      | some _ =>
        let s2 := { s1 with issued := true }
        let r4 := documentRequest s w
        match post r4 with
        | none => (s2, [r1, r2, r3, r4])
        | some d => ({ s2 with docLink := jsOr (d.prop "downloadUrl") .null }, [r1, r2, r3, r4])

/-! ## The workflow as a transition system -/

/-- One user action, run to its end. The checkout button reacts only while it is
not disabled; the asset selector offers the assets of the wallet policy. -/
inductive Step : State → State → Prop where
  | name (s : State) (v : String) : Step s (editName s v)
  | email (s : State) (v : String) : Step s (editEmail s v)
  | asset (s : State) (v : String) (h : v ∈ issuer.walletPolicy.assets) : Step s (editAsset s v)
  | amount (s : State) (v : Option ℚ) : Step s (editAmount s v)
  | kyc (s : State) (post : Api) : Step s (startKyc post s)
  | accredit (s : State) (post : Api) : Step s (startAccredit post s)
  | checkout (s : State) (post : Api) (h : checkoutDisabled s = false) :
      Step s (checkout post s).1

/-- The states the session can be in. -/
inductive Reachable : State → Prop where
  | init : Reachable initialState
  | step {s t : State} (hs : Reachable s) (h : Step s t) : Reachable t

/-- The invariant of the workflow: payment created and confirmed go together, a document
link is there only after issuance, issuance only after a confirmed payment, a confirmed
payment only after KYC and accreditation. -/
def WorkflowInv (s : State) : Prop :=
  s.pay.created = s.pay.confirmed ∧
    (s.docLink ≠ .null → s.issued = true) ∧
    (s.issued = true → s.pay.confirmed = true) ∧
    (s.pay.confirmed = true → s.kyc.passed = true ∧ s.acc.verified = true)

/-- None of the four progress flags is true in `s` and false in `t`. -/
def NoReset (s t : State) : Prop :=
  (s.kyc.passed = true → t.kyc.passed = true) ∧
    (s.acc.verified = true → t.acc.verified = true) ∧
    (s.pay.confirmed = true → t.pay.confirmed = true) ∧
    (s.issued = true → t.issued = true)

/-! ## Sample sessions -/

/-- The answer of the sample API to a call of `path`: a reference id and a download URL. -/
def stubResponse (path : String) : Response :=
  [("referenceId", .str ("ref-" ++ path)),
    ("downloadUrl", .str "https://files.example/pack.pdf")]

/-- An API whose calls to the paths in `failing` throw and whose other calls answer with
`stubResponse`. -/
def stubApi (failing : List String) : Api := fun r =>
  if r.path ∈ failing then none else some (stubResponse r.path)

/-- The form filled in from the initial state. -/
def filledForm (name email : String) (amount : ℚ) : State :=
  editAmount (editEmail (editName initialState name) email) (some amount)

/-- The form filled in, then `startKyc`, then `startAccredit`. -/
def readySession (post : Api) (name email : String) (amount : ℚ) : State :=
  startAccredit post (startKyc post (filledForm name email amount))

/-- A session in which the checkout control is enabled and no payment was made yet. -/
def sampleReady : State := readySession (stubApi []) "Ada" "ada@example.org" 5000

/-! ## Evaluation lemmas -/

theorem abs_roundEven_sub_le (t : ℚ) : |(roundEven t : ℚ) - t| ≤ 1 / 2 := by
  have h1 := Int.floor_le t
  have h2 := Int.lt_floor_add_one t
  unfold roundEven
  split_ifs with ha hb hc
  · rw [abs_le]; constructor <;> linarith
  · rw [abs_le]; push_cast; constructor <;> linarith
  · rw [abs_le]; constructor <;> linarith
  · rw [abs_le]; push_cast; constructor <;> linarith

theorem roundEven_eq_of_abs_lt {t : ℚ} {m : ℤ} (h : |t - m| < 1 / 2) : roundEven t = m := by
  rw [abs_lt] at h
  obtain ⟨h1, h2⟩ := h
  by_cases hm : (m : ℚ) ≤ t
  · have hf : ⌊t⌋ = m := Int.floor_eq_iff.mpr ⟨hm, by linarith⟩
    unfold roundEven
    rw [hf, if_pos (by linarith)]
  · push_neg at hm
    have hf : ⌊t⌋ = m - 1 := Int.floor_eq_iff.mpr ⟨by push_cast; linarith, by push_cast; linarith⟩
    unfold roundEven
    rw [hf, if_neg (by push_cast; linarith), if_pos (by push_cast; linarith)]
    ring

theorem roundEven_intCast (n : ℤ) : roundEven (n : ℚ) = n :=
  roundEven_eq_of_abs_lt (by simp)

theorem roundEven_le_floor_add_one (t : ℚ) : roundEven t ≤ ⌊t⌋ + 1 := by
  unfold roundEven
  split_ifs <;> omega

theorem floor_le_roundEven (t : ℚ) : ⌊t⌋ ≤ roundEven t := by
  unfold roundEven
  split_ifs <;> omega

theorem roundEven_mono {t t' : ℚ} (h : t ≤ t') : roundEven t ≤ roundEven t' := by
  have hf : ⌊t⌋ ≤ ⌊t'⌋ := Int.floor_mono h
  rcases hf.lt_or_eq with hlt | heq
  · calc roundEven t ≤ ⌊t⌋ + 1 := roundEven_le_floor_add_one t
      _ ≤ ⌊t'⌋ := hlt
      _ ≤ roundEven t' := floor_le_roundEven t'
  · unfold roundEven
    rw [← heq]
    split_ifs <;> first | omega | (exfalso; linarith)

theorem binade_eq {x : ℚ} {e : ℤ} (he : -1022 ≤ e) (h1 : (2 : ℚ) ^ e ≤ |x|)
    (h2 : |x| < (2 : ℚ) ^ (e + 1)) : binade x = e := by
  have hpos : 0 < |x| := lt_of_lt_of_le (zpow_pos (by norm_num) e) h1
  have hlog : Int.log 2 |x| = e := by
    apply le_antisymm
    · have := (Int.lt_zpow_iff_log_lt (b := 2) (by norm_num) hpos).mp (by exact_mod_cast h2)
      omega
    · exact (Int.zpow_le_iff_le_log (b := 2) (by norm_num) hpos).mp (by exact_mod_cast h1)
  unfold binade
  rw [hlog]
  exact max_eq_left he

theorem ulp_pos (x : ℚ) : 0 < ulp x := zpow_pos (by norm_num) _

theorem two_zpow_split (a b : ℤ) : (2 : ℚ) ^ (a + b) = 2 ^ a * 2 ^ b :=
  zpow_add₀ (by norm_num) a b

theorem roundD_eq {x : ℚ} {e m : ℤ} (he : -1022 ≤ e) (h1 : (2 : ℚ) ^ e ≤ |x|)
    (h2 : |x| < (2 : ℚ) ^ (e + 1)) (hm : |x / 2 ^ (e - 52) - m| < 1 / 2) :
    roundD x = m * 2 ^ (e - 52) := by
  unfold roundD ulp
  rw [binade_eq he h1 h2, roundEven_eq_of_abs_lt hm]

theorem toDouble_eq {x : ℚ} {e m : ℤ} (he : -1022 ≤ e) (h1 : (2 : ℚ) ^ e ≤ |x|)
    (h2 : |x| < (2 : ℚ) ^ (e + 1)) (hm : |x / 2 ^ (e - 52) - m| < 1 / 2)
    (hfin : |(m : ℚ) * 2 ^ (e - 52)| < 2 ^ (1024 : ℤ)) :
    toDouble x = some ((m : ℚ) * 2 ^ (e - 52)) := by
  unfold toDouble
  rw [roundD_eq he h1 h2 hm, if_pos hfin]

theorem abs_roundD_sub_le (x : ℚ) : |roundD x - x| ≤ ulp x / 2 := by
  have hu := ulp_pos x
  have h := abs_roundEven_sub_le (x / ulp x)
  have hx : roundD x - x = ((roundEven (x / ulp x) : ℚ) - x / ulp x) * ulp x := by
    unfold roundD
    field_simp
  rw [hx, abs_mul, abs_of_pos hu]
  calc |(roundEven (x / ulp x) : ℚ) - x / ulp x| * ulp x ≤ 1 / 2 * ulp x :=
        mul_le_mul_of_nonneg_right h hu.le
    _ = ulp x / 2 := by ring

theorem roundD_nonneg {x : ℚ} (hx : 0 ≤ x) : 0 ≤ roundD x := by
  unfold roundD
  have h : (0 : ℤ) ≤ roundEven (x / ulp x) := by
    have := roundEven_mono (div_nonneg hx (ulp_pos x).le)
    rwa [show ((0 : ℚ)) = ((0 : ℤ) : ℚ) by simp, roundEven_intCast] at this
  exact mul_nonneg (by exact_mod_cast h) (ulp_pos x).le

theorem ulp_of_normal {x : ℚ} (hlo : (2 : ℚ) ^ (-1022 : ℤ) ≤ |x|) :
    ulp x ≤ 2 ^ (-52 : ℤ) * |x| := by
  have hpos : 0 < |x| := lt_of_lt_of_le (zpow_pos (by norm_num) _) hlo
  have he : -1022 ≤ Int.log 2 |x| :=
    (Int.zpow_le_iff_le_log (b := 2) (by norm_num) hpos).mp (by exact_mod_cast hlo)
  have h1 : (2 : ℚ) ^ Int.log 2 |x| ≤ |x| := by
    exact_mod_cast Int.zpow_log_le_self (b := 2) (by norm_num) hpos
  unfold ulp binade
  rw [max_eq_left he, sub_eq_add_neg, two_zpow_split, mul_comm]
  exact mul_le_mul_of_nonneg_left h1 (zpow_pos (by norm_num) _).le

theorem toDouble_rel {x : ℚ} (hlo : (2 : ℚ) ^ (-1022 : ℤ) ≤ |x|)
    (hhi : |x| ≤ 2 ^ (1023 : ℤ)) :
    ∃ d, toDouble x = some d ∧ |d - x| ≤ 2 ^ (-53 : ℤ) * |x| := by
  have hu := ulp_of_normal hlo
  have herr := abs_roundD_sub_le x
  have h53 : (2 : ℚ) ^ (-53 : ℤ) = 2 ^ (-52 : ℤ) / 2 := by norm_num
  have hbound : |roundD x - x| ≤ 2 ^ (-53 : ℤ) * |x| := by
    rw [h53]
    calc |roundD x - x| ≤ ulp x / 2 := herr
      _ ≤ 2 ^ (-52 : ℤ) * |x| / 2 := div_le_div_of_nonneg_right hu (by norm_num)
      _ = 2 ^ (-52 : ℤ) / 2 * |x| := by ring
  refine ⟨roundD x, ?_, hbound⟩
  unfold toDouble
  rw [if_pos]
  have habs : |roundD x| ≤ |x| + |roundD x - x| := by
    have := abs_add (roundD x - x) x
    simp only [sub_add_cancel] at this
    linarith
  have hB : (2 : ℚ) ^ (1024 : ℤ) = 2 * 2 ^ (1023 : ℤ) := by
    rw [show (1024 : ℤ) = 1 + 1023 by norm_num, two_zpow_split]
    norm_num
  have hx0 : 0 ≤ |x| := abs_nonneg x
  have hs : (2 : ℚ) ^ (-53 : ℤ) ≤ 1 / 2 := by norm_num
  have hP : (0 : ℚ) < 2 ^ (1023 : ℤ) := zpow_pos (by norm_num) _
  have hs' : (2 : ℚ) ^ (-53 : ℤ) * |x| ≤ 1 / 2 * |x| := mul_le_mul_of_nonneg_right hs hx0
  rw [hB]
  generalize (2 : ℚ) ^ (1023 : ℤ) = P at hhi hP ⊢
  generalize (2 : ℚ) ^ (-53 : ℤ) * |x| = E at hbound hs'
  linarith

theorem binade_mono {x y : ℚ} (hx : 0 < x) (hxy : x ≤ y) : binade x ≤ binade y := by
  unfold binade
  have : Int.log 2 |x| ≤ Int.log 2 |y| := by
    rw [abs_of_pos hx, abs_of_pos (lt_of_lt_of_le hx hxy)]
    exact Int.log_mono_right hx hxy
  exact max_le_max this le_rfl

theorem roundD_mono {x y : ℚ} (hx : 0 ≤ x) (hxy : x ≤ y) : roundD x ≤ roundD y := by
  rcases hx.lt_or_eq with hpos | h0
  · have hy : 0 < y := lt_of_lt_of_le hpos hxy
    rcases (binade_mono hpos hxy).lt_or_eq with hlt | heq
    · -- different binades: the power of two between them separates the roundings
      have hux := ulp_pos x
      have huy := ulp_pos y
      have hxlt : x < 2 ^ (binade x + 1) := by
        have h := Int.lt_zpow_succ_log_self (b := 2) (by norm_num) |x|
        rw [abs_of_pos hpos] at h
        have h' : x < (2 : ℚ) ^ (Int.log 2 x + 1) := by exact_mod_cast h
        refine lt_of_lt_of_le h' (zpow_le_zpow_right₀ (by norm_num) ?_)
        have : Int.log 2 x ≤ binade x := by
          unfold binade; rw [abs_of_pos hpos]; exact le_max_left _ _
        omega
      have hyge : (2 : ℚ) ^ binade y ≤ y := by
        have hlog : binade y = Int.log 2 |y| := by
          unfold binade at hlt ⊢
          have h1022 : -1022 ≤ max (Int.log 2 |x|) (-1022) := le_max_right _ _
          rcases le_total (Int.log 2 |y|) (-1022) with h | h
          · rw [max_eq_right h] at hlt; omega
          · exact max_eq_left h
        rw [hlog]
        have h := Int.zpow_log_le_self (b := 2) (R := ℚ) (by norm_num) (abs_pos.mpr hy.ne.symm)
        rw [abs_of_pos hy] at h ⊢
        exact_mod_cast h
      have h1 : roundD x ≤ 2 ^ (binade x + 1) := by
        have hq : x / ulp x ≤ ((2 ^ 53 : ℤ) : ℚ) := by
          rw [div_le_iff₀ hux]
          have : ((2 ^ 53 : ℤ) : ℚ) * ulp x = 2 ^ (binade x + 1) := by
            unfold ulp
            rw [show binade x + 1 = 53 + (binade x - 52) by ring, two_zpow_split]
            norm_num
          rw [this]; exact hxlt.le
        have hr := roundEven_mono hq
        rw [roundEven_intCast] at hr
        have hr' : (roundEven (x / ulp x) : ℚ) ≤ ((2 ^ 53 : ℤ) : ℚ) := by exact_mod_cast hr
        have : ((2 ^ 53 : ℤ) : ℚ) * ulp x = 2 ^ (binade x + 1) := by
          unfold ulp
          rw [show binade x + 1 = 53 + (binade x - 52) by ring, two_zpow_split]
          norm_num
        unfold roundD
        rw [← this]
        exact mul_le_mul_of_nonneg_right hr' hux.le
      have h2 : (2 : ℚ) ^ binade y ≤ roundD y := by
        have hq : ((2 ^ 52 : ℤ) : ℚ) ≤ y / ulp y := by
          rw [le_div_iff₀ huy]
          have : ((2 ^ 52 : ℤ) : ℚ) * ulp y = 2 ^ binade y := by
            unfold ulp
            rw [show binade y = 52 + (binade y - 52) by ring, two_zpow_split]
            norm_num
          rw [this]; exact hyge
        have hr := roundEven_mono hq
        rw [roundEven_intCast] at hr
        have hr' : ((2 ^ 52 : ℤ) : ℚ) ≤ (roundEven (y / ulp y) : ℚ) := by exact_mod_cast hr
        have : ((2 ^ 52 : ℤ) : ℚ) * ulp y = 2 ^ binade y := by
          unfold ulp
          rw [show binade y = 52 + (binade y - 52) by ring, two_zpow_split]
          norm_num
        unfold roundD
        rw [← this]
        exact mul_le_mul_of_nonneg_right hr' huy.le
      have h3 : (2 : ℚ) ^ (binade x + 1) ≤ 2 ^ binade y :=
        zpow_le_zpow_right₀ (by norm_num) (by omega)
      linarith
    · have hu : ulp x = ulp y := by unfold ulp; rw [heq]
      unfold roundD
      rw [hu]
      have hq : x / ulp y ≤ y / ulp y := div_le_div_of_nonneg_right hxy (ulp_pos y).le
      have hr := roundEven_mono hq
      have hr' : (roundEven (x / ulp y) : ℚ) ≤ (roundEven (y / ulp y) : ℚ) := by exact_mod_cast hr
      exact mul_le_mul_of_nonneg_right hr' (ulp_pos y).le
  · subst h0
    have h0 : roundD 0 = 0 := by
      unfold roundD
      rw [zero_div, show ((0 : ℚ)) = ((0 : ℤ) : ℚ) by simp, roundEven_intCast]
      simp
    rw [h0]
    exact roundD_nonneg hxy

theorem toDouble_mono {x y d : ℚ} (hx : 0 ≤ x) (hxy : x ≤ y) (hy : toDouble y = some d) :
    ∃ c, toDouble x = some c ∧ 0 ≤ c ∧ c ≤ d := by
  unfold toDouble at hy
  split_ifs at hy with hfin
  simp only [Option.some.injEq] at hy
  subst hy
  have h0 := roundD_nonneg hx
  have hm := roundD_mono hx hxy
  refine ⟨roundD x, ?_, h0, hm⟩
  unfold toDouble
  rw [if_pos]
  rw [abs_of_nonneg h0]
  rw [abs_of_nonneg (le_trans h0 hm)] at hfin
  linarith

theorem roundD_zero : roundD 0 = 0 := by
  unfold roundD
  rw [zero_div, show ((0 : ℚ)) = ((0 : ℤ) : ℚ) by simp, roundEven_intCast]
  simp

theorem toDouble_zero : toDouble 0 = some 0 := by
  unfold toDouble
  rw [roundD_zero, if_pos]
  rw [abs_zero]
  exact zpow_pos (by norm_num) _

theorem ulp_of_subnormal {x : ℚ} (h0 : x ≠ 0) (hlt : |x| < (2 : ℚ) ^ (-1022 : ℤ)) :
    ulp x = 2 ^ (-1074 : ℤ) := by
  have hpos : 0 < |x| := abs_pos.mpr h0
  have hl : Int.log 2 |x| < -1022 :=
    (Int.lt_zpow_iff_log_lt (b := 2) (by norm_num) hpos).mp (by exact_mod_cast hlt)
  unfold ulp binade
  rw [max_eq_right hl.le]
  norm_num

theorem toDouble_abs {x : ℚ} (hhi : |x| ≤ 2 ^ (1023 : ℤ)) :
    ∃ d, toDouble x = some d ∧ |d - x| ≤ 2 ^ (-53 : ℤ) * |x| + 2 ^ (-1075 : ℤ) := by
  have heta : (0 : ℚ) < 2 ^ (-1075 : ℤ) := zpow_pos (by norm_num) _
  have hu : (0 : ℚ) ≤ 2 ^ (-53 : ℤ) * |x| :=
    mul_nonneg (zpow_pos (by norm_num) _).le (abs_nonneg x)
  by_cases hlo : (2 : ℚ) ^ (-1022 : ℤ) ≤ |x|
  · obtain ⟨d, hd, he⟩ := toDouble_rel hlo hhi
    exact ⟨d, hd, by linarith⟩
  · push_neg at hlo
    by_cases h0 : x = 0
    · subst h0
      exact ⟨0, toDouble_zero, by simp; positivity⟩
    · have hulp := ulp_of_subnormal h0 hlo
      have herr := abs_roundD_sub_le x
      rw [hulp] at herr
      have h75 : (2 : ℚ) ^ (-1074 : ℤ) / 2 = 2 ^ (-1075 : ℤ) := by
        rw [show (-1074 : ℤ) = 1 + (-1075) by norm_num, two_zpow_split]
        norm_num
      rw [h75] at herr
      refine ⟨roundD x, ?_, by linarith⟩
      unfold toDouble
      rw [if_pos]
      have habs : |roundD x| ≤ |x| + |roundD x - x| := by
        have := abs_add (roundD x - x) x
        simp only [sub_add_cancel] at this
        linarith
      have h1 : (2 : ℚ) ^ (-1022 : ℤ) ≤ 1 := zpow_le_one_of_nonpos₀ (by norm_num) (by norm_num)
      have h2 : (2 : ℚ) ^ (-1075 : ℤ) ≤ 1 := zpow_le_one_of_nonpos₀ (by norm_num) (by norm_num)
      have h3 : (2 : ℚ) ≤ 2 ^ (1024 : ℤ) := by
        have := zpow_le_zpow_right₀ (a := (2 : ℚ)) (by norm_num) (show (1 : ℤ) ≤ 1024 by norm_num)
        simpa using this
      linarith

/-- The error of `(a / p) * c` computed in doubles, for a product of moderate size. -/
theorem mulDiv_err {a p c : ℚ} (hp : p ≠ 0) (hc1 : 1 ≤ c) (hc2 : c ≤ 2 ^ (30 : ℤ))
    (hx : |a / p * c| ≤ 2 ^ (50 : ℤ)) :
    ∃ q y, numDiv a p = some q ∧ numMul q c = some y ∧ |y - a / p * c| < 1 / 2 := by
  have hc0 : 0 < c := by linarith
  have hr : |a / p| ≤ 2 ^ (50 : ℤ) := by
    rw [abs_mul, abs_of_pos hc0] at hx
    have : |a / p| ≤ |a / p| * c := le_mul_of_one_le_right (abs_nonneg _) hc1
    linarith
  have h50 : (2 : ℚ) ^ (50 : ℤ) ≤ 2 ^ (1023 : ℤ) := zpow_le_zpow_right₀ (by norm_num) (by norm_num)
  obtain ⟨q, hq, hqe⟩ := toDouble_abs (le_trans hr h50)
  have habs_q : |q * c - a / p * c| ≤ (2 ^ (-53 : ℤ) * |a / p| + 2 ^ (-1075 : ℤ)) * c := by
    rw [← sub_mul, abs_mul, abs_of_pos hc0]
    exact mul_le_mul_of_nonneg_right hqe hc0.le
  have hxc : |a / p| * c ≤ 2 ^ (50 : ℤ) := by
    rw [abs_mul, abs_of_pos hc0] at hx; exact hx
  have heta : (2 : ℚ) ^ (-1075 : ℤ) * c ≤ 2 ^ (-1045 : ℤ) := by
    calc (2 : ℚ) ^ (-1075 : ℤ) * c ≤ 2 ^ (-1075 : ℤ) * 2 ^ (30 : ℤ) :=
          mul_le_mul_of_nonneg_left hc2 (zpow_pos (by norm_num) _).le
      _ = 2 ^ (-1045 : ℤ) := by rw [← two_zpow_split]; norm_num
  have hsmall : (2 : ℚ) ^ (-1045 : ℤ) ≤ 2 ^ (-10 : ℤ) :=
    zpow_le_zpow_right₀ (by norm_num) (by norm_num)
  have hsmall2 : (2 : ℚ) ^ (-1075 : ℤ) ≤ 2 ^ (-10 : ℤ) :=
    zpow_le_zpow_right₀ (by norm_num) (by norm_num)
  have h10 : (2 : ℚ) ^ (-10 : ℤ) = 1 / 1024 := by norm_num
  have hu50 : (2 : ℚ) ^ (-53 : ℤ) * 2 ^ (50 : ℤ) = 1 / 8 := by
    rw [← two_zpow_split]; norm_num
  have hu53 : (2 : ℚ) ^ (-53 : ℤ) ≤ 1 / 1024 := by norm_num
  have hupos : (0 : ℚ) < 2 ^ (-53 : ℤ) := zpow_pos (by norm_num) _
  have hd1 : |q * c - a / p * c| ≤ 1 / 8 + 1 / 1024 := by
    have e1 : (2 ^ (-53 : ℤ) * |a / p| + 2 ^ (-1075 : ℤ)) * c
        = 2 ^ (-53 : ℤ) * (|a / p| * c) + 2 ^ (-1075 : ℤ) * c := by ring
    have e2 : (2 : ℚ) ^ (-53 : ℤ) * (|a / p| * c) ≤ 2 ^ (-53 : ℤ) * 2 ^ (50 : ℤ) :=
      mul_le_mul_of_nonneg_left hxc hupos.le
    rw [e1] at habs_q
    linarith
  have ht : |q * c| ≤ 2 ^ (50 : ℤ) + 1 := by
    have := abs_add (q * c - a / p * c) (a / p * c)
    simp only [sub_add_cancel] at this
    linarith
  have h51 : (2 : ℚ) ^ (50 : ℤ) + 1 ≤ 2 ^ (1023 : ℤ) := by
    have h1 : (1 : ℚ) ≤ 2 ^ (50 : ℤ) := one_le_zpow₀ (by norm_num) (by norm_num)
    have h2 : (2 : ℚ) ^ (50 : ℤ) + 2 ^ (50 : ℤ) = 2 ^ (51 : ℤ) := by
      rw [show (51 : ℤ) = 1 + 50 by norm_num, two_zpow_split]; norm_num
    have h3 : (2 : ℚ) ^ (51 : ℤ) ≤ 2 ^ (1023 : ℤ) := zpow_le_zpow_right₀ (by norm_num) (by norm_num)
    linarith
  obtain ⟨y, hy, hye⟩ := toDouble_abs (le_trans ht h51)
  refine ⟨q, y, ?_, hy, ?_⟩
  · unfold numDiv; rw [if_neg hp]; exact hq
  · have hd2 : |y - q * c| ≤ 1 / 8 + 1 / 1024 + 1 / 1024 := by
      have e2 : (2 : ℚ) ^ (-53 : ℤ) * |q * c| ≤ 2 ^ (-53 : ℤ) * (2 ^ (50 : ℤ) + 1) :=
        mul_le_mul_of_nonneg_left ht hupos.le
      have e3 : (2 : ℚ) ^ (-53 : ℤ) * (2 ^ (50 : ℤ) + 1) = 1 / 8 + 2 ^ (-53 : ℤ) := by
        rw [mul_add, hu50, mul_one]
      rw [e3] at e2
      rw [h10] at hsmall2
      generalize (2 : ℚ) ^ (-53 : ℤ) * |q * c| = E at hye e2
      generalize (2 : ℚ) ^ (-1075 : ℤ) = η at hye hsmall2
      generalize (2 : ℚ) ^ (-53 : ℤ) = u at e2 hu53
      linarith
    have := abs_add (y - q * c) (q * c - a / p * c)
    simp only [sub_add_sub_cancel] at this
    have hlt : (1 : ℚ) / 8 + 1 / 1024 + 1 / 1024 + (1 / 8 + 1 / 1024) < 1 / 2 := by norm_num
    linarith

theorem floor_near {x y : ℚ} (h : |y - x| < 1 / 2) : |(⌊y⌋ : ℤ) - ⌊x⌋| ≤ 1 := by
  rw [abs_lt] at h
  have h1 : ⌊y⌋ ≤ ⌊x⌋ + 1 := by
    have := Int.floor_mono (show y ≤ x + 1 by linarith)
    rwa [Int.floor_add_one] at this
  have h2 : ⌊x⌋ ≤ ⌊y⌋ + 1 := by
    have := Int.floor_mono (show x ≤ y + 1 by linarith)
    rwa [Int.floor_add_one] at this
  rw [abs_le]
  constructor <;> omega

theorem sharesOf_near {p a : ℚ} (hp : 0 < p) (hx : |a / p * 1000| ≤ 2 ^ (50 : ℤ)) :
    ∃ k : ℤ, sharesOf p a = toDouble ((k : ℚ) / 1000) ∧ |k - ⌊a / p * 1000⌋| ≤ 1 := by
  obtain ⟨q, y, hq, hy, he⟩ := mulDiv_err (c := 1000) hp.ne.symm (by norm_num) (by norm_num) hx
  refine ⟨⌊y⌋, ?_, floor_near he⟩
  unfold sharesOf
  rw [hq, Option.some_bind, hy, Option.some_bind]
  unfold numDiv Math_floor
  rw [if_neg (by norm_num)]

theorem toDouble_rel_nonneg {x : ℚ} (hx : 0 ≤ x) (hlo : x = 0 ∨ (2 : ℚ) ^ (-1022 : ℤ) ≤ x)
    (hhi : x ≤ 2 ^ (1023 : ℤ)) :
    ∃ d, toDouble x = some d ∧ x * (1 - 1 / 9007199254740992) ≤ d ∧
      d ≤ x * (1 + 1 / 9007199254740992) := by
  rcases hlo with h0 | hlo
  · subst h0
    exact ⟨0, toDouble_zero, by simp, by simp⟩
  · obtain ⟨d, hd, he⟩ := toDouble_rel (x := x) (by rwa [abs_of_nonneg hx])
      (by rwa [abs_of_nonneg hx])
    rw [abs_of_nonneg hx, show (2 : ℚ) ^ (-53 : ℤ) = 1 / 9007199254740992 by norm_num,
      abs_le] at he
    exact ⟨d, hd, by linarith, by linarith⟩

theorem toDouble_two_zpow_neg_1022 :
    toDouble (2 ^ (-1022 : ℤ)) = some (2 ^ (-1022 : ℤ)) := by
  have hpos : (0 : ℚ) < 2 ^ (-1022 : ℤ) := zpow_pos (by norm_num) _
  have key : ((4503599627370496 : ℤ) : ℚ) * 2 ^ ((-1022 : ℤ) - 52) = 2 ^ (-1022 : ℤ) := by
    rw [show ((4503599627370496 : ℤ) : ℚ) = 2 ^ (52 : ℤ) by norm_num, ← two_zpow_split]
    norm_num
  have h := toDouble_eq (x := 2 ^ (-1022 : ℤ)) (e := -1022) (m := 4503599627370496)
    (by norm_num) (by rw [abs_of_pos hpos])
    (by rw [abs_of_pos hpos]; exact zpow_lt_zpow_right₀ (by norm_num) (by norm_num))
    (by
      have hq : (0 : ℚ) < 2 ^ ((-1022 : ℤ) - 52) := zpow_pos (by norm_num) _
      rw [show (2 : ℚ) ^ (-1022 : ℤ) / 2 ^ ((-1022 : ℤ) - 52) = ((4503599627370496 : ℤ) : ℚ) by
        rw [div_eq_iff hq.ne.symm]; exact key.symm]
      simp)
    (by
      rw [key, abs_of_pos hpos]
      exact zpow_lt_zpow_right₀ (by norm_num) (by norm_num))
  rw [h, key]

theorem toDouble_tiny {x : ℚ} (hx : 0 ≤ x) (hlt : x ≤ 2 ^ (-1022 : ℤ)) :
    ∃ d, toDouble x = some d ∧ 0 ≤ d ∧ d ≤ 2 ^ (-1022 : ℤ) :=
  toDouble_mono hx hlt toDouble_two_zpow_neg_1022

theorem toDouble_nonneg {x d : ℚ} (hx : 0 ≤ x) (h : toDouble x = some d) : 0 ≤ d := by
  obtain ⟨c, hc, h0, _⟩ := toDouble_mono hx le_rfl h
  rw [hc] at h
  simp only [Option.some.injEq] at h
  rwa [← h]

/-- The three roundings of `sharesOf` for an amount of at least zero, with the bounds
they leave between the result and the exact quotient `a / p`. -/
theorem sharesOf_chain {p a : ℚ} (hp : 0 < p) (ha : 0 ≤ a) (hr : a / p ≤ 2 ^ (1000 : ℤ)) :
    ∃ s, sharesOf p a = some s ∧ 0 ≤ s ∧
      s ≤ a / p * (1 + 1 / 2251799813685248) ∧
      a / p * (1 - 1 / 2251799813685248) - 1 / 1000 < s := by
  have hr0 : 0 ≤ a / p := div_nonneg ha hp.le
  have h1022 : (2 : ℚ) ^ (-1022 : ℤ) ≤ 2 ^ (-20 : ℤ) :=
    zpow_le_zpow_right₀ (by norm_num) (by norm_num)
  have h20 : (2 : ℚ) ^ (-20 : ℤ) = 1 / 1048576 := by norm_num
  have hbig : (2 : ℚ) ^ (1000 : ℤ) * 2048 = 2 ^ (1011 : ℤ) := by
    rw [show (2048 : ℚ) = 2 ^ (11 : ℤ) by norm_num, ← two_zpow_split]; norm_num
  have hbig2 : (2 : ℚ) ^ (1011 : ℤ) ≤ 2 ^ (1023 : ℤ) :=
    zpow_le_zpow_right₀ (by norm_num) (by norm_num)
  have hP : (0 : ℚ) < 2 ^ (1000 : ℤ) := zpow_pos (by norm_num) _
  have hsh : ∀ q y s : ℚ, numDiv a p = some q → numMul q 1000 = some y →
      toDouble ((⌊y⌋ : ℚ) / 1000) = some s → sharesOf p a = some s := by
    intro q y s hq hy hs
    unfold sharesOf
    rw [hq, Option.some_bind, hy, Option.some_bind]
    unfold numDiv Math_floor
    rw [if_neg (by norm_num)]
    exact hs
  have hdiv : ∀ q, toDouble (a / p) = some q → numDiv a p = some q := by
    intro q hq
    unfold numDiv
    rw [if_neg hp.ne.symm]
    exact hq
  by_cases hsmall : a / p < 2 ^ (-1022 : ℤ)
  · -- the quotient is below the normal range: the result is zero
    obtain ⟨q, hq, hq0, hq1⟩ := toDouble_tiny hr0 hsmall.le
    have ht0 : 0 ≤ q * 1000 := by linarith
    have ht1 : q * 1000 ≤ 1 / 1024 := by
      rw [h20] at h1022
      generalize (2 : ℚ) ^ (-1022 : ℤ) = m at h1022 hq1
      linarith
    have htb : |q * 1000| ≤ 2 ^ (1023 : ℤ) := by
      rw [abs_of_nonneg ht0]
      have : (1 : ℚ) ≤ 2 ^ (1023 : ℤ) := one_le_zpow₀ (by norm_num) (by norm_num)
      linarith
    obtain ⟨y, hy, hye⟩ := toDouble_abs htb
    have hy0 : 0 ≤ y := toDouble_nonneg ht0 hy
    have hy1 : y < 1 := by
      rw [abs_of_nonneg ht0, abs_le] at hye
      have h53 : (2 : ℚ) ^ (-53 : ℤ) ≤ 1 := zpow_le_one_of_nonpos₀ (by norm_num) (by norm_num)
      have h75 : (2 : ℚ) ^ (-1075 : ℤ) ≤ 2 ^ (-20 : ℤ) :=
        zpow_le_zpow_right₀ (by norm_num) (by norm_num)
      rw [h20] at h75
      have hm : (2 : ℚ) ^ (-53 : ℤ) * (q * 1000) ≤ 1 * (q * 1000) :=
        mul_le_mul_of_nonneg_right h53 ht0
      generalize (2 : ℚ) ^ (-53 : ℤ) * (q * 1000) = E at hye hm
      generalize (2 : ℚ) ^ (-1075 : ℤ) = η at hye h75
      linarith [hye.2]
    have hk : ⌊y⌋ = 0 := Int.floor_eq_iff.mpr ⟨by simpa using hy0, by simpa using hy1⟩
    refine ⟨0, hsh q y 0 (hdiv q hq) hy ?_, le_rfl, ?_, ?_⟩
    · rw [hk]; simpa using toDouble_zero
    · exact mul_nonneg hr0 (by norm_num)
    · rw [h20] at h1022
      have : a / p * (1 - 1 / 2251799813685248) ≤ a / p :=
        mul_le_of_le_one_right hr0 (by norm_num)
      generalize (2 : ℚ) ^ (-1022 : ℤ) = m at h1022 hsmall
      linarith
  · push_neg at hsmall
    have hr1 : a / p ≤ 2 ^ (1023 : ℤ) :=
      le_trans hr (zpow_le_zpow_right₀ (by norm_num) (by norm_num))
    obtain ⟨q, hq, hql, hqu⟩ := toDouble_rel_nonneg hr0 (Or.inr hsmall) hr1
    have hq0 : 0 ≤ q := toDouble_nonneg hr0 hq
    have ht0 : 0 ≤ q * 1000 := by linarith
    have htlo : (2 : ℚ) ^ (-1022 : ℤ) ≤ q * 1000 := by
      have hpos : (0 : ℚ) < 2 ^ (-1022 : ℤ) := zpow_pos (by norm_num) _
      generalize (2 : ℚ) ^ (-1022 : ℤ) = m at hsmall hpos ⊢
      linarith
    have hthi : q * 1000 ≤ 2 ^ (1023 : ℤ) := by
      refine le_trans ?_ hbig2
      rw [← hbig]
      generalize (2 : ℚ) ^ (1000 : ℤ) = P at hr hP ⊢
      linarith
    obtain ⟨y, hy, hyl, hyu⟩ := toDouble_rel_nonneg ht0 (Or.inr htlo) hthi
    have hy0 : 0 ≤ y := toDouble_nonneg ht0 hy
    have hk0 : (0 : ℤ) ≤ ⌊y⌋ := Int.floor_nonneg.mpr hy0
    have hk0q : (0 : ℚ) ≤ (⌊y⌋ : ℚ) := by exact_mod_cast hk0
    have hkle : (⌊y⌋ : ℚ) ≤ y := Int.floor_le y
    have hklt : y < (⌊y⌋ : ℚ) + 1 := Int.lt_floor_add_one y
    have hw0 : 0 ≤ (⌊y⌋ : ℚ) / 1000 := div_nonneg hk0q (by norm_num)
    have hwlo : (⌊y⌋ : ℚ) / 1000 = 0 ∨ (2 : ℚ) ^ (-1022 : ℤ) ≤ (⌊y⌋ : ℚ) / 1000 := by
      rcases hk0.lt_or_eq with hpos | hz
      · right
        have h1 : (1 : ℤ) ≤ ⌊y⌋ := hpos
        have h1q : (1 : ℚ) ≤ (⌊y⌋ : ℚ) := by exact_mod_cast h1
        rw [h20] at h1022
        generalize (2 : ℚ) ^ (-1022 : ℤ) = m at h1022 ⊢
        linarith
      · left
        rw [← hz]; simp
    have hwhi : (⌊y⌋ : ℚ) / 1000 ≤ 2 ^ (1023 : ℤ) := by
      generalize (2 : ℚ) ^ (1023 : ℤ) = B at hthi ⊢
      linarith
    obtain ⟨s, hs, hsl, hsu⟩ := toDouble_rel_nonneg hw0 hwlo hwhi
    refine ⟨s, hsh q y s (hdiv q hq) hy hs, toDouble_nonneg hw0 hs, ?_, ?_⟩
    · linarith
    · linarith

theorem sharesOf_mono {p a a' s' : ℚ} (hp : 0 < p) (ha : 0 ≤ a) (hle : a ≤ a')
    (hs' : sharesOf p a' = some s') : ∃ s, sharesOf p a = some s ∧ s ≤ s' := by
  unfold sharesOf at hs'
  obtain ⟨q', hq', hs'⟩ := Option.bind_eq_some.mp hs'
  obtain ⟨y', hy', hs'⟩ := Option.bind_eq_some.mp hs'
  unfold numDiv at hq' hs'
  rw [if_neg hp.ne.symm] at hq'
  rw [if_neg (by norm_num)] at hs'
  unfold numMul at hy'
  obtain ⟨q, hq, hq0, hqq⟩ := toDouble_mono (div_nonneg ha hp.le)
    (div_le_div_of_nonneg_right hle hp.le) hq'
  obtain ⟨y, hy, hy0, hyy⟩ := toDouble_mono (x := q * 1000) (by linarith) (by linarith) hy'
  have hk : (Math_floor y : ℚ) ≤ (Math_floor y' : ℚ) := by
    have : Math_floor y ≤ Math_floor y' := Int.floor_mono hyy
    exact_mod_cast this
  have hk0 : (0 : ℚ) ≤ (Math_floor y : ℚ) := by
    have : (0 : ℤ) ≤ Math_floor y := Int.floor_nonneg.mpr hy0
    exact_mod_cast this
  obtain ⟨s, hs, _, hss⟩ := toDouble_mono (x := (Math_floor y : ℚ) / 1000)
    (div_nonneg hk0 (by norm_num)) (div_le_div_of_nonneg_right hk (by norm_num)) hs'
  refine ⟨s, ?_, hss⟩
  unfold sharesOf numDiv numMul
  rw [if_neg hp.ne.symm, hq, Option.some_bind, hy, Option.some_bind, if_neg (by norm_num)]
  exact hs

/-- The shares figure for 5123 USD at 5 USD a share: the double written 1024.599. -/
theorem sharesOf_5123 : sharesOf 5 5123 = some (4506234057230647 / 4398046511104) := by
  have h1 : toDouble (5123 / 5) = some (2253119227638579 / 2199023255552) := by
    rw [toDouble_eq (e := 10) (m := 4506238455277158) (by norm_num) (by norm_num [abs_of_pos])
      (by norm_num [abs_of_pos]) (by norm_num [abs_lt]) (by norm_num [abs_of_pos])]
    norm_num
  have h2 : toDouble (2253119227638579 / 2199023255552 * 1000) = some (8801246982963199 / 8589934592) := by
    rw [toDouble_eq (e := 19) (m := 8801246982963199) (by norm_num) (by norm_num [abs_of_pos])
      (by norm_num [abs_of_pos]) (by norm_num [abs_lt]) (by norm_num [abs_of_pos])]
    norm_num
  have h3 : Math_floor (8801246982963199 / 8589934592) = 1024599 :=
    Int.floor_eq_iff.mpr ⟨by norm_num, by norm_num⟩
  have h4 : toDouble (((1024599 : ℤ) : ℚ) / 1000) = some (4506234057230647 / 4398046511104) := by
    rw [toDouble_eq (e := 10) (m := 4506234057230647) (by norm_num) (by norm_num [abs_of_pos])
      (by norm_num [abs_of_pos]) (by norm_num [abs_lt]) (by norm_num [abs_of_pos])]
    norm_num
  unfold sharesOf numDiv numMul
  rw [if_neg (by norm_num), h1, Option.some_bind, h2, Option.some_bind, if_neg (by norm_num),
    h3, h4]

/-- The shares figure for the double written 5000.03 at 5 USD a share: the double written 1000.006. -/
theorem sharesOf_5000_03 : sharesOf 5 (5497591124228833 / 1099511627776) = some (8796145798766133 / 8796093022208) := by
  have h1 : toDouble ((5497591124228833 / 1099511627776) / 5) = some (8796145798766133 / 8796093022208) := by
    rw [toDouble_eq (e := 9) (m := 8796145798766133) (by norm_num) (by norm_num [abs_of_pos])
      (by norm_num [abs_of_pos]) (by norm_num [abs_lt]) (by norm_num [abs_of_pos])]
    norm_num
  have h2 : toDouble (8796145798766133 / 8796093022208 * 1000) = some (1000006) := by
    rw [toDouble_eq (e := 19) (m := 8589986131607552) (by norm_num) (by norm_num [abs_of_pos])
      (by norm_num [abs_of_pos]) (by norm_num [abs_lt]) (by norm_num [abs_of_pos])]
    norm_num
  have h3 : Math_floor (1000006) = 1000006 :=
    Int.floor_eq_iff.mpr ⟨by norm_num, by norm_num⟩
  have h4 : toDouble (((1000006 : ℤ) : ℚ) / 1000) = some (8796145798766133 / 8796093022208) := by
    rw [toDouble_eq (e := 9) (m := 8796145798766133) (by norm_num) (by norm_num [abs_of_pos])
      (by norm_num [abs_of_pos]) (by norm_num [abs_lt]) (by norm_num [abs_of_pos])]
    norm_num
  unfold sharesOf numDiv numMul
  rw [if_neg (by norm_num), h1, Option.some_bind, h2, Option.some_bind, if_neg (by norm_num),
    h3, h4]

/-- The required amount of BTC for 10000 USD: the double written 0.14705882. -/
theorem needAssetOf_BTC_10000 : needAssetOf "BTC" 10000 = some (5298352375628359 / 36028797018963968) := by
  have hq : numOr (quotesAt ("BTC" ++ "USD")) 1 = 68000 := by
    rw [show quotesAt ("BTC" ++ "USD") = some 68000 by decide]
    norm_num [numOr]
  have h1 : toDouble (10000 / 68000) = some (5298352502788819 / 36028797018963968) := by
    rw [toDouble_eq (e := -3) (m := 5298352502788819) (by norm_num) (by norm_num [abs_of_pos])
      (by norm_num [abs_of_pos]) (by norm_num [abs_lt]) (by norm_num [abs_of_pos])]
    norm_num
  have h2 : toDouble (5298352502788819 / 36028797018963968 * 100000000) = some (1973790117647059 / 134217728) := by
    rw [toDouble_eq (e := 23) (m := 7895160470588236) (by norm_num) (by norm_num [abs_of_pos])
      (by norm_num [abs_of_pos]) (by norm_num [abs_lt]) (by norm_num [abs_of_pos])]
    norm_num
  have h3 : Math_round (1973790117647059 / 134217728) = 14705882 :=
    Int.floor_eq_iff.mpr ⟨by norm_num, by norm_num⟩
  have h4 : toDouble (((14705882 : ℤ) : ℚ) / 100000000) = some (5298352375628359 / 36028797018963968) := by
    rw [toDouble_eq (e := -3) (m := 5298352375628359) (by norm_num) (by norm_num [abs_of_pos])
      (by norm_num [abs_of_pos]) (by norm_num [abs_lt]) (by norm_num [abs_of_pos])]
    norm_num
  unfold needAssetOf numDiv numMul
  rw [hq, if_neg (by norm_num), h1, Option.some_bind, h2, Option.some_bind,
    if_neg (by norm_num), h3, h4]

/-- The required amount of BTC for 5003.3125 USD: the double written 0.07357812. -/
theorem needAssetOf_BTC_5003 : needAssetOf "BTC" (80053 / 16) = some (2650931150516973 / 36028797018963968) := by
  have hq : numOr (quotesAt ("BTC" ++ "USD")) 1 = 68000 := by
    rw [show quotesAt ("BTC" ++ "USD") = some 68000 by decide]
    norm_num [numOr]
  have h1 : toDouble ((80053 / 16) / 68000) = some (1325465665330479 / 18014398509481984) := by
    rw [toDouble_eq (e := -4) (m := 5301862661321916) (by norm_num) (by norm_num [abs_of_pos])
      (by norm_num [abs_of_pos]) (by norm_num [abs_lt]) (by norm_num [abs_of_pos])]
    norm_num
  have h2 : toDouble (1325465665330479 / 18014398509481984 * 100000000) = some (7900391014399999 / 1073741824) := by
    rw [toDouble_eq (e := 22) (m := 7900391014399999) (by norm_num) (by norm_num [abs_of_pos])
      (by norm_num [abs_of_pos]) (by norm_num [abs_lt]) (by norm_num [abs_of_pos])]
    norm_num
  have h3 : Math_round (7900391014399999 / 1073741824) = 7357812 :=
    Int.floor_eq_iff.mpr ⟨by norm_num, by norm_num⟩
  have h4 : toDouble (((7357812 : ℤ) : ℚ) / 100000000) = some (2650931150516973 / 36028797018963968) := by
    rw [toDouble_eq (e := -4) (m := 5301862301033946) (by norm_num) (by norm_num [abs_of_pos])
      (by norm_num [abs_of_pos]) (by norm_num [abs_lt]) (by norm_num [abs_of_pos])]
    norm_num
  unfold needAssetOf numDiv numMul
  rw [hq, if_neg (by norm_num), h1, Option.some_bind, h2, Option.some_bind,
    if_neg (by norm_num), h3, h4]


/-- The number literal `0.14705882`. -/
theorem toDouble_0_14705882 : toDouble (14705882 / 100000000) = some (5298352375628359 / 36028797018963968) := by
  rw [toDouble_eq (e := -3) (m := 5298352375628359) (by norm_num) (by norm_num [abs_of_pos])
    (by norm_num [abs_of_pos]) (by norm_num [abs_lt]) (by norm_num [abs_of_pos])]
  norm_num

/-- The number literal `1024.599`. -/
theorem toDouble_1024_599 : toDouble (1024599 / 1000) = some (4506234057230647 / 4398046511104) := by
  rw [toDouble_eq (e := 10) (m := 4506234057230647) (by norm_num) (by norm_num [abs_of_pos])
    (by norm_num [abs_of_pos]) (by norm_num [abs_lt]) (by norm_num [abs_of_pos])]
  norm_num

/-- The number literal `5000.03`, as `Number` reads it from the amount field. -/
theorem toDouble_5000_03 : toDouble (500003 / 100) = some (5497591124228833 / 1099511627776) := by
  rw [toDouble_eq (e := 12) (m := 5497591124228833) (by norm_num) (by norm_num [abs_of_pos])
    (by norm_num [abs_of_pos]) (by norm_num [abs_lt]) (by norm_num [abs_of_pos])]
  norm_num

/-- The number literal `0.07357812`. -/
theorem toDouble_0_07357812 : toDouble (7357812 / 100000000) = some (2650931150516973 / 36028797018963968) := by
  rw [toDouble_eq (e := -4) (m := 5301862301033946) (by norm_num) (by norm_num [abs_of_pos])
    (by norm_num [abs_of_pos]) (by norm_num [abs_lt]) (by norm_num [abs_of_pos])]
  norm_num

theorem needAssetOf_near {asset : String} {a q : ℚ}
    (hq : numOr (quotesAt (asset ++ "USD")) 1 = q) (hq0 : q ≠ 0)
    (hx : |a / q * 100000000| ≤ 2 ^ (50 : ℤ)) :
    ∃ n : ℤ, needAssetOf asset a = toDouble ((n : ℚ) / 100000000) ∧
      |n - round (a / q * 100000000)| ≤ 1 := by
  obtain ⟨x, y, hx', hy, he⟩ :=
    mulDiv_err (c := 100000000) hq0 (by norm_num) (by norm_num) hx
  refine ⟨Math_round y, ?_, ?_⟩
  · unfold needAssetOf
    rw [hq, hx', Option.some_bind, hy, Option.some_bind]
    unfold numDiv
    rw [if_neg (by norm_num)]
  · rw [round_eq]
    unfold Math_round
    apply floor_near
    rwa [add_sub_add_right_eq_sub]

theorem truthy_canCheckout_iff (s : State) :
    truthy (canCheckout s) = true ↔
      s.investor.name ≠ "" ∧ s.investor.email ≠ "" ∧ (5000 : ℚ) ≤ s.amount ∧
        s.kyc.passed = true ∧ s.acc.verified = true := by
  by_cases h1 : s.investor.name = "" <;> by_cases h2 : s.investor.email = "" <;>
    by_cases h3 : (5000 : ℚ) ≤ s.amount <;>
    cases h4 : s.kyc.passed <;> cases h5 : s.acc.verified <;>
    simp [canCheckout, jsAnd, truthy, issuer, h1, h2, h3, h4, h5]

/-! ## Runs of `checkout`, by the first call that throws -/

theorem checkout_payment_fails {post : Api} {s : State} (hc : post (paymentRequest s) = none) :
    checkout post s = (s, [paymentRequest s]) := by
  simp [checkout, hc]

theorem checkout_webhook_fails {post : Api} {s : State} {c : Response}
    (hc : post (paymentRequest s) = some c) (hw : post (webhookRequest c) = none) :
    checkout post s = (s, [paymentRequest s, webhookRequest c]) := by
  simp [checkout, hc, hw]

theorem checkout_issue_fails {post : Api} {s : State} {c w : Response}
    (hc : post (paymentRequest s) = some c) (hw : post (webhookRequest c) = some w)
    (hi : post (issueRequest s) = none) :
    checkout post s
      = ({ s with pay := { created := true, confirmed := true, ref := w.prop "referenceId" } },
          [paymentRequest s, webhookRequest c, issueRequest s]) := by
  simp [checkout, hc, hw, hi]

theorem checkout_document_fails {post : Api} {s : State} {c w i : Response}
    (hc : post (paymentRequest s) = some c) (hw : post (webhookRequest c) = some w)
    (hi : post (issueRequest s) = some i) (hd : post (documentRequest s w) = none) :
    checkout post s
      = ({ s with
            pay := { created := true, confirmed := true, ref := w.prop "referenceId" }
            issued := true },
          [paymentRequest s, webhookRequest c, issueRequest s, documentRequest s w]) := by
  simp [checkout, hc, hw, hi, hd]

theorem checkout_all_succeed {post : Api} {s : State} {c w i d : Response}
    (hc : post (paymentRequest s) = some c) (hw : post (webhookRequest c) = some w)
    (hi : post (issueRequest s) = some i) (hd : post (documentRequest s w) = some d) :
    checkout post s
      = ({ s with
            pay := { created := true, confirmed := true, ref := w.prop "referenceId" }
            issued := true
            docLink := jsOr (d.prop "downloadUrl") .null },
          [paymentRequest s, webhookRequest c, issueRequest s, documentRequest s w]) := by
  simp [checkout, hc, hw, hi, hd]

/-- The four shapes of the state that `checkout` leaves. -/
theorem checkout_shape (post : Api) (s : State) :
    (checkout post s).1 = s ∨
      (∃ r, (checkout post s).1 = { s with pay := { created := true, confirmed := true, ref := r } }) ∨
      (∃ r, (checkout post s).1
          = { s with pay := { created := true, confirmed := true, ref := r }, issued := true }) ∨
      (∃ r u, (checkout post s).1
          = { s with
                pay := { created := true, confirmed := true, ref := r }
                issued := true
                docLink := u }) := by
  cases hc : post (paymentRequest s) with
  | none => exact Or.inl (by rw [checkout_payment_fails hc])
  | some c =>
    cases hw : post (webhookRequest c) with
    | none => exact Or.inl (by rw [checkout_webhook_fails hc hw])
    | some w =>
      cases hi : post (issueRequest s) with
      | none => exact Or.inr (Or.inl ⟨_, by rw [checkout_issue_fails hc hw hi]⟩)
      | some i =>
        cases hd : post (documentRequest s w) with
        | none => exact Or.inr (Or.inr (Or.inl ⟨_, by rw [checkout_document_fails hc hw hi hd]⟩))
        | some d =>
          exact Or.inr (Or.inr (Or.inr ⟨_, _, by rw [checkout_all_succeed hc hw hi hd]⟩))

theorem startKyc_ok {post : Api} {s : State} {resp : Response}
    (h : post (kycRequest s) = some resp) :
    startKyc post s = { s with kyc := { passed := true, ref := resp.prop "referenceId" } } := by
  simp [startKyc, h]

theorem startKyc_fails {post : Api} {s : State} (h : post (kycRequest s) = none) :
    startKyc post s = s := by
  simp [startKyc, h]

theorem startAccredit_ok {post : Api} {s : State} {resp : Response}
    (h : post (accreditRequest s) = some resp) :
    startAccredit post s
      = { s with acc := { verified := true, ref := resp.prop "referenceId" } } := by
  simp [startAccredit, h]

theorem startAccredit_fails {post : Api} {s : State} (h : post (accreditRequest s) = none) :
    startAccredit post s = s := by
  simp [startAccredit, h]

theorem step_noReset {s t : State} (h : Step s t) : NoReset s t := by
  cases h with
  | name v => exact ⟨id, id, id, id⟩
  | email v => exact ⟨id, id, id, id⟩
  | asset v _ => exact ⟨id, id, id, id⟩
  | amount v => exact ⟨id, id, id, id⟩
  | kyc post =>
    cases hk : post (kycRequest s) with
    | none => rw [startKyc_fails hk]; exact ⟨id, id, id, id⟩
    | some resp => rw [startKyc_ok hk]; exact ⟨fun _ => rfl, id, id, id⟩
  | accredit post =>
    cases hk : post (accreditRequest s) with
    | none => rw [startAccredit_fails hk]; exact ⟨id, id, id, id⟩
    | some resp => rw [startAccredit_ok hk]; exact ⟨id, fun _ => rfl, id, id⟩
  | checkout post _ =>
    rcases checkout_shape post s with h | ⟨r, h⟩ | ⟨r, h⟩ | ⟨r, u, h⟩ <;> rw [h]
    · exact ⟨id, id, id, id⟩
    · exact ⟨id, id, fun _ => rfl, id⟩
    · exact ⟨id, id, fun _ => rfl, fun _ => rfl⟩
    · exact ⟨id, id, fun _ => rfl, fun _ => rfl⟩

theorem step_inv {s t : State} (hs : WorkflowInv s) (h : Step s t) : WorkflowInv t := by
  obtain ⟨h1, h2, h3, h4⟩ := hs
  cases h with
  | name v => exact ⟨h1, h2, h3, h4⟩
  | email v => exact ⟨h1, h2, h3, h4⟩
  | asset v _ => exact ⟨h1, h2, h3, h4⟩
  | amount v => exact ⟨h1, h2, h3, h4⟩
  | kyc post =>
    cases hk : post (kycRequest s) with
    | none => rw [startKyc_fails hk]; exact ⟨h1, h2, h3, h4⟩
    | some resp =>
      rw [startKyc_ok hk]
      exact ⟨h1, h2, h3, fun hp => ⟨rfl, (h4 hp).2⟩⟩
  | accredit post =>
    cases hk : post (accreditRequest s) with
    | none => rw [startAccredit_fails hk]; exact ⟨h1, h2, h3, h4⟩
    | some resp =>
      rw [startAccredit_ok hk]
      exact ⟨h1, h2, h3, fun hp => ⟨(h4 hp).1, rfl⟩⟩
  | checkout post hg =>
    have hgate : s.kyc.passed = true ∧ s.acc.verified = true := by
      have ht : truthy (canCheckout s) = true := by
        simpa [checkoutDisabled, jsNot] using hg
      have := (truthy_canCheckout_iff s).mp ht
      exact ⟨this.2.2.2.1, this.2.2.2.2⟩
    rcases checkout_shape post s with h | ⟨r, h⟩ | ⟨r, h⟩ | ⟨r, u, h⟩ <;> rw [h]
    · exact ⟨h1, h2, h3, h4⟩
    · exact ⟨rfl, h2, fun _ => rfl, fun _ => hgate⟩
    · exact ⟨rfl, fun _ => rfl, fun _ => rfl, fun _ => hgate⟩
    · exact ⟨rfl, fun _ => rfl, fun _ => rfl, fun _ => hgate⟩

theorem initialState_inv : WorkflowInv initialState := by
  refine ⟨rfl, ?_, ?_, ?_⟩
  · intro h; exact absurd rfl h
  · intro h; exact absurd h (by decide)
  · intro h; exact absurd h (by decide)

theorem reachable_inv {s : State} (h : Reachable s) : WorkflowInv s := by
  induction h with
  | init => exact initialState_inv
  | step _ hst ih => exact step_inv ih hst

theorem steps_noReset {s t : State} (h : Relation.ReflTransGen Step s t) : NoReset s t := by
  induction h with
  | refl => exact ⟨id, id, id, id⟩
  | tail _ hst ih =>
    have h' := step_noReset hst
    exact ⟨fun x => h'.1 (ih.1 x), fun x => h'.2.1 (ih.2.1 x),
      fun x => h'.2.2.1 (ih.2.2.1 x), fun x => h'.2.2.2 (ih.2.2.2 x)⟩

/-! ## The checkout gate -/

/-- C1: for every session state the checkout control is enabled (`canCheckout` truthy,
`disabled = !canCheckout` false) exactly when the name is non-empty, the email is
non-empty, the amount is at least the issuer minimum 5000, KYC has passed and the
accreditation is verified; and once the name is emptied the control is disabled whatever
the other four are. -/
theorem checkout_enabled_iff (s : State) :
    (truthy (canCheckout s) = true ↔
        s.investor.name ≠ "" ∧ s.investor.email ≠ "" ∧ (5000 : ℚ) ≤ s.amount ∧
          s.kyc.passed = true ∧ s.acc.verified = true) ∧
      (checkoutDisabled s = false ↔
        s.investor.name ≠ "" ∧ s.investor.email ≠ "" ∧ (5000 : ℚ) ≤ s.amount ∧
          s.kyc.passed = true ∧ s.acc.verified = true) ∧
      issuer.minInvestmentUSD = 5000 ∧
      checkoutDisabled (editName s "") = true := by
  refine ⟨truthy_canCheckout_iff s, ?_, rfl, ?_⟩
  · rw [← truthy_canCheckout_iff s]
    simp [checkoutDisabled, jsNot]
  · have h := truthy_canCheckout_iff (editName s "")
    have hn : ¬ truthy (canCheckout (editName s "")) = true := by
      rw [h]
      simp [editName]
    simpa [checkoutDisabled, jsNot] using hn

/-! ## Shares -/

/-- C2 as written fails: for 5123 USD at 5 USD a share the program gives the double
written 1024.599, one thousandth below `floor((5123 / 5) * 1000) / 1000 = 1024.6`: the
double product `(5123 / 5) * 1000` is just below 1024600. -/
theorem shares_5123_not_exact :
    shares (editAmount initialState (some 5123))
        = some (4506234057230647 / 4398046511104) ∧
      toDouble (1024599 / 1000) = some (4506234057230647 / 4398046511104) ∧
      ((⌊(5123 : ℚ) / 5 * 1000⌋ : ℤ) : ℚ) / 1000 = 10246 / 10 ∧
      (4506234057230647 / 4398046511104 : ℚ) < 10246 / 10 - 9 / 10000 := by
  refine ⟨?_, toDouble_1024_599, ?_, by norm_num⟩
  · show sharesOf 5 (numOr (some 5123) 0) = _
    rw [show numOr (some 5123) 0 = 5123 by norm_num [numOr]]
    exact sharesOf_5123
  · have h : ⌊(5123 : ℚ) / 5 * 1000⌋ = 1024600 :=
      Int.floor_eq_iff.mpr ⟨by norm_num, by norm_num⟩
    rw [h]
    norm_num

/-- C2, amended: for every amount and every price per share above zero (with
`|amount / price * 1000|` at most `2 ^ 50`), the shares figure is
`Math.floor((amount / price) * 1000) / 1000` computed in double arithmetic: it is the
double nearest to `k / 1000` for an integer `k` that is `floor(amount / price * 1000)`
or next to it. In the program the price is 5. -/
theorem shares_formula (s : State) (p : ℚ) (hp : 0 < p)
    (hx : |s.amount / p * 1000| ≤ 2 ^ (50 : ℤ)) :
    (∃ k : ℤ, sharesOf p s.amount = toDouble ((k : ℚ) / 1000) ∧
        |k - ⌊s.amount / p * 1000⌋| ≤ 1) ∧
      shares s = sharesOf 5 s.amount :=
  ⟨sharesOf_near hp hx, rfl⟩

/-- Witness of C2, amended, at the minimum investment of the initial state. -/
theorem shares_formula_witness :
    ∃ k : ℤ, sharesOf 5 initialState.amount = toDouble ((k : ℚ) / 1000) ∧
      |k - ⌊initialState.amount / 5 * 1000⌋| ≤ 1 :=
  (shares_formula initialState 5 (by norm_num)
    (by
      show |(5000 : ℚ) / 5 * 1000| ≤ 2 ^ (50 : ℤ)
      norm_num [abs_of_pos])).1

/-- C9 as written fails. For 5123 USD the program gives 1024.599 shares, so that
`amount - shares * price` is not below `price / 1000`; and for the amount 5000.03 (the
double that `Number` reads from that input) it gives 1000.006 shares, whose value
`shares * price` is above the amount. -/
theorem shares_overissue_counterexample :
    (∃ v, shares (editAmount initialState (some 5123)) = some v ∧
        ¬ (5123 - v * price < price / 1000)) ∧
      toDouble (500003 / 100) = some (5497591124228833 / 1099511627776) ∧
      (∃ v, shares (editAmount initialState (some (5497591124228833 / 1099511627776)))
            = some v ∧
        ¬ (v * price ≤ 5497591124228833 / 1099511627776)) := by
  refine ⟨⟨4506234057230647 / 4398046511104, ?_, ?_⟩, toDouble_5000_03,
    ⟨8796145798766133 / 8796093022208, ?_, ?_⟩⟩
  · show sharesOf 5 (numOr (some 5123) 0) = _
    rw [show numOr (some 5123) 0 = 5123 by norm_num [numOr]]
    exact sharesOf_5123
  · norm_num [price, issuer]
  · show sharesOf 5 (numOr (some (5497591124228833 / 1099511627776)) 0) = _
    rw [show numOr (some (5497591124228833 / 1099511627776)) 0
        = 5497591124228833 / 1099511627776 by norm_num [numOr]]
    exact sharesOf_5000_03
  · norm_num [price, issuer]

/-- C9, amended: for every amount of at least zero and every price above zero (with
`amount / price` at most `2 ^ 1000`), the shares figure is at least zero and, up to the
rounding of double arithmetic, never over-issues: `shares * price` is at most
`amount * (1 + 2 ^ -51)` and `amount - shares * price` is below
`price / 1000 + amount * 2 ^ -51`; and a larger amount never gives fewer shares. In the
program the price is 5. -/
theorem shares_no_overissue (s s' : State) (p : ℚ) (hp : 0 < p) (ha : 0 ≤ s.amount)
    (hle : s.amount ≤ s'.amount) (hr : s'.amount / p ≤ 2 ^ (1000 : ℤ)) :
    (∃ sh sh' : ℚ, sharesOf p s.amount = some sh ∧ sharesOf p s'.amount = some sh' ∧
        0 ≤ sh ∧
        sh * p ≤ s.amount * (1 + 1 / 2 ^ 51) ∧
        s.amount - sh * p < p / 1000 + s.amount * (1 / 2 ^ 51) ∧
        sh ≤ sh') ∧
      shares s = sharesOf 5 s.amount ∧ shares s' = sharesOf 5 s'.amount := by
  refine ⟨?_, rfl, rfl⟩
  obtain ⟨sh', hs', -, -, -⟩ := sharesOf_chain hp (le_trans ha hle) hr
  obtain ⟨sh, hs, h0, hup, hlo⟩ := sharesOf_chain hp ha
    (le_trans (div_le_div_of_nonneg_right hle hp.le) hr)
  obtain ⟨sh₂, hs₂, hmono⟩ := sharesOf_mono hp ha hle hs'
  rw [hs] at hs₂
  simp only [Option.some.injEq] at hs₂
  subst hs₂
  have hap : s.amount / p * p = s.amount := div_mul_cancel₀ _ hp.ne.symm
  refine ⟨sh, sh', hs, hs', h0, ?_, ?_, hmono⟩
  · have h := mul_le_mul_of_nonneg_right hup hp.le
    have e : s.amount / p * (1 + 1 / 2251799813685248) * p
        = s.amount * (1 + 1 / 2 ^ 51) := by
      rw [mul_right_comm, hap]; norm_num
    rw [e] at h
    exact h
  · have h := mul_lt_mul_of_pos_right hlo hp
    have e : (s.amount / p * (1 - 1 / 2251799813685248) - 1 / 1000) * p
        = s.amount - s.amount * (1 / 2 ^ 51) - p / 1000 := by
      rw [sub_mul, mul_right_comm, hap]; norm_num; ring
    rw [e] at h
    linarith

/-- Witness of C9, amended: the initial amount 5000 and the amount 5123 at price 5. -/
theorem shares_no_overissue_witness :
    ∃ sh sh' : ℚ, sharesOf 5 5000 = some sh ∧ sharesOf 5 5123 = some sh' ∧
      0 ≤ sh ∧ sh * 5 ≤ 5000 * (1 + 1 / 2 ^ 51) ∧
      5000 - sh * 5 < 5 / 1000 + 5000 * (1 / 2 ^ 51) ∧ sh ≤ sh' :=
  (shares_no_overissue initialState { initialState with amount := 5123 } 5 (by norm_num)
    (by show (0 : ℚ) ≤ 5000; norm_num) (by show (5000 : ℚ) ≤ 5123; norm_num)
    (by
      show (5123 : ℚ) / 5 ≤ 2 ^ (1000 : ℤ)
      have h : (2 : ℚ) ^ (11 : ℤ) ≤ 2 ^ (1000 : ℤ) :=
        zpow_le_zpow_right₀ (by norm_num) (by norm_num)
      have h2 : (5123 : ℚ) / 5 ≤ 2 ^ (11 : ℤ) := by norm_num
      exact le_trans h2 h)).1

/-! ## Required asset amount -/

/-- C3: for every amount above zero and every asset, when the quote table has a quote
`q > 0` for the asset (read under the key `asset + "USD"`) the required asset amount
is the value of `round((amount / q) * 1e8) / 1e8` in the arithmetic of the program, and
when the table has none the quote used is 1. For a product `(amount / q) * 1e8` of at
most `2 ^ 50` that value is the double nearest to `n / 1e8`, for an integer `n` that is
the exact rounding of the product or next to it. -/
theorem needAsset_formula (s : State) (q : ℚ) (ha : 0 < s.amount) :
    (quotesAt (s.asset ++ "USD") = some q → 0 < q →
        needAsset s = roundTo8 s.amount q ∧
          (s.amount / q * 100000000 ≤ 2 ^ (50 : ℤ) →
            ∃ n : ℤ, needAsset s = toDouble ((n : ℚ) / 100000000) ∧
              |n - round (s.amount / q * 100000000)| ≤ 1)) ∧
      (quotesAt (s.asset ++ "USD") = none →
        needAsset s = roundTo8 s.amount 1 ∧
          (s.amount / 1 * 100000000 ≤ 2 ^ (50 : ℤ) →
            ∃ n : ℤ, needAsset s = toDouble ((n : ℚ) / 100000000) ∧
              |n - round (s.amount / 1 * 100000000)| ≤ 1)) := by
  constructor
  · intro hq h0
    have hq' : numOr (quotesAt (s.asset ++ "USD")) 1 = q := by
      simp [hq, numOr, h0.ne.symm]
    refine ⟨?_, fun hx => ?_⟩
    · unfold needAsset needAssetOf roundTo8
      rw [hq']
    · exact needAssetOf_near hq' h0.ne.symm
        (by rwa [abs_of_nonneg (mul_nonneg (div_nonneg ha.le h0.le) (by norm_num))])
  · intro hq
    have hq' : numOr (quotesAt (s.asset ++ "USD")) 1 = 1 := by
      simp [hq, numOr]
    refine ⟨?_, fun hx => ?_⟩
    · unfold needAsset needAssetOf roundTo8
      rw [hq']
    · exact needAssetOf_near hq' one_ne_zero
        (by rwa [abs_of_nonneg (mul_nonneg (div_nonneg ha.le zero_le_one) (by norm_num))])

/-- Witness of C3: for 5003.3125 USD in BTC (quote 68000) the required amount is the
formula in the arithmetic of the program, the double written 0.07357812. -/
theorem needAsset_formula_witness :
    needAsset { initialState with asset := "BTC", amount := 80053 / 16 }
        = roundTo8 (80053 / 16) 68000 ∧
      needAsset { initialState with asset := "BTC", amount := 80053 / 16 }
        = some (2650931150516973 / 36028797018963968) ∧
      toDouble (7357812 / 100000000) = some (2650931150516973 / 36028797018963968) :=
  ⟨((needAsset_formula { initialState with asset := "BTC", amount := 80053 / 16 } 68000
      (by show (0 : ℚ) < 80053 / 16; norm_num)).1 (by decide) (by norm_num)).1,
    needAssetOf_BTC_5003, toDouble_0_07357812⟩

/-- C8: with amount 10000, price 5 and the asset BTC, whose quote 68000 the table holds
under the key "BTCUSD", the required asset amount is
`round((10000 / 68000) * 1e8) / 1e8 = 0.14705882`: the rounded product is 14705882 and
the result is the double that the literal `0.14705882` denotes. -/
theorem needAsset_BTC_scenario :
    "BTC" ∈ issuer.walletPolicy.assets ∧
      quotesAt ("BTC" ++ "USD") = some 68000 ∧
      price = 5 ∧
      needAsset (editAmount (editAsset initialState "BTC") (some 10000))
        = roundTo8 10000 68000 ∧
      needAsset (editAmount (editAsset initialState "BTC") (some 10000))
        = toDouble (14705882 / 100000000) ∧
      needAsset (editAmount (editAsset initialState "BTC") (some 10000))
        = some (5298352375628359 / 36028797018963968) ∧
      |(5298352375628359 / 36028797018963968 : ℚ) - 14705882 / 100000000|
        < 1 / 10 ^ 17 := by
  have hq : quotesAt ("BTC" ++ "USD") = some 68000 := by decide
  have hs : needAsset (editAmount (editAsset initialState "BTC") (some 10000))
      = needAssetOf "BTC" 10000 := by
    show needAssetOf "BTC" (numOr (some 10000) 0) = _
    rw [show numOr (some 10000) 0 = 10000 by norm_num [numOr]]
  have hr : needAssetOf "BTC" 10000 = roundTo8 10000 68000 := by
    unfold needAssetOf roundTo8
    rw [hq]
    norm_num [numOr]
  refine ⟨by decide, hq, rfl, ?_, ?_, ?_, ?_⟩
  · rw [hs, hr]
  · rw [hs, needAssetOf_BTC_10000, toDouble_0_14705882]
  · rw [hs, needAssetOf_BTC_10000]
  · rw [abs_lt]
    constructor <;> norm_num

/-! ## The handlers -/

/-- C7: for every state and every successful response, whatever its content, `startKyc`
sets the KYC status to passed with the reference id of the response and changes nothing
else; `startAccredit` does the same for the accreditation status; and when the call
fails neither handler changes the state. -/
theorem start_handlers_frame (post : Api) (s : State) :
    (∀ resp, post (kycRequest s) = some resp →
        startKyc post s
          = { s with kyc := { passed := true, ref := resp.prop "referenceId" } }) ∧
      (post (kycRequest s) = none → startKyc post s = s) ∧
      (∀ resp, post (accreditRequest s) = some resp →
        startAccredit post s
          = { s with acc := { verified := true, ref := resp.prop "referenceId" } }) ∧
      (post (accreditRequest s) = none → startAccredit post s = s) :=
  ⟨fun _ h => startKyc_ok h, startKyc_fails, fun _ h => startAccredit_ok h,
    startAccredit_fails⟩

/-- Witness of C7: a response that says the check was declined still marks KYC passed,
and a failing call leaves the initial state as it is. -/
theorem start_handlers_frame_witness :
    startKyc (fun _ => some [("status", .str "declined")]) initialState
        = { initialState with kyc := { passed := true, ref := .undefined } } ∧
      startAccredit (fun _ => none) initialState = initialState :=
  ⟨(start_handlers_frame (fun _ => some [("status", .str "declined")]) initialState).1
      [("status", .str "declined")] rfl,
    (start_handlers_frame (fun _ => none) initialState).2.2.2 rfl⟩

/-- C4 as written fails: in a session ready for checkout, with the create-payment call
succeeding and the confirm-payment call failing, `pay.created` is false after the
run, since `setPay` is only reached after the second call. -/
theorem checkout_webhook_failure_created_false :
    checkoutDisabled sampleReady = false ∧
      stubApi ["payments/webhook"] (paymentRequest sampleReady)
        = some (stubResponse "payments/checkout") ∧
      stubApi ["payments/webhook"] (webhookRequest (stubResponse "payments/checkout")) = none ∧
      (checkout (stubApi ["payments/webhook"]) sampleReady).1.pay.created = false ∧
      (checkout (stubApi ["payments/webhook"]) sampleReady).1.pay.created ≠ true := by
  have hc : stubApi ["payments/webhook"] (paymentRequest sampleReady)
      = some (stubResponse "payments/checkout") := by
    simp [stubApi, paymentRequest]
  have hw : stubApi ["payments/webhook"] (webhookRequest (stubResponse "payments/checkout"))
      = none := by
    simp [stubApi, webhookRequest]
  have hcr : (checkout (stubApi ["payments/webhook"]) sampleReady).1.pay.created = false := by
    rw [checkout_webhook_fails hc hw]
    simp [sampleReady, readySession, filledForm, startAccredit, startKyc, stubApi,
      kycRequest, accreditRequest, editAmount, editEmail, editName, initialState]
  refine ⟨?_, hc, hw, hcr, by rw [hcr]; decide⟩
  have h := truthy_canCheckout_iff sampleReady
  have ht : truthy (canCheckout sampleReady) = true := by
    rw [h]
    simp [sampleReady, readySession, filledForm, startAccredit, startKyc, stubApi,
      kycRequest, accreditRequest, editAmount, editEmail, editName, numOr]
  simp [checkoutDisabled, jsNot, ht]

/-- C4, amended: for every run of `checkout` in which the create-payment call succeeds
and the confirm-payment call fails, the state is left as it was before the run (so
`pay.created` and `pay.confirmed` keep their values and the document link stays as it
was), only those two calls are made, and the issuance call is never invoked. -/
theorem checkout_webhook_failure (post : Api) (s : State) (c : Response)
    (hc : post (paymentRequest s) = some c) (hw : post (webhookRequest c) = none) :
    (checkout post s).1 = s ∧
      (checkout post s).1.pay.created = s.pay.created ∧
      (checkout post s).1.pay.confirmed = s.pay.confirmed ∧
      (checkout post s).1.docLink = s.docLink ∧
      (checkout post s).2 = [paymentRequest s, webhookRequest c] ∧
      ∀ r ∈ (checkout post s).2, r.path ≠ "captable/issue" := by
  rw [checkout_webhook_fails hc hw]
  refine ⟨rfl, rfl, rfl, rfl, rfl, ?_⟩
  intro r hr
  simp only [List.mem_cons, List.mem_singleton, List.not_mem_nil, or_false] at hr
  rcases hr with rfl | rfl <;> simp [paymentRequest, webhookRequest]

/-- Witness of C4, amended: from the initial state the payment stays not created and not
confirmed and the document link stays absent. -/
theorem checkout_webhook_failure_witness :
    (checkout (stubApi ["payments/webhook"]) initialState).1.pay.created = false ∧
      (checkout (stubApi ["payments/webhook"]) initialState).1.pay.confirmed = false ∧
      (checkout (stubApi ["payments/webhook"]) initialState).1.docLink = .null := by
  have h := checkout_webhook_failure (stubApi ["payments/webhook"]) initialState
    (stubResponse "payments/checkout")
    (by simp [stubApi, paymentRequest]) (by simp [stubApi, webhookRequest])
  rw [h.1]
  exact ⟨rfl, rfl, rfl⟩

/-- C6: `checkout` does not roll back. When the create-payment and confirm-payment calls
succeed and the issuance call fails, the payment is created and confirmed with the
reference id of the webhook response, `issued` and the document link are as they were,
and the compliance-document call is never made; when only the document call fails, the
payment is confirmed, `issued` is true and the document link is as it was. -/
theorem checkout_no_rollback (post : Api) (s : State) (c w : Response)
    (hc : post (paymentRequest s) = some c) (hw : post (webhookRequest c) = some w) :
    (post (issueRequest s) = none →
        (checkout post s).1
            = { s with
                  pay := { created := true, confirmed := true, ref := w.prop "referenceId" } } ∧
          (checkout post s).1.issued = s.issued ∧
          (checkout post s).1.docLink = s.docLink ∧
          (checkout post s).2 = [paymentRequest s, webhookRequest c, issueRequest s] ∧
          ∀ r ∈ (checkout post s).2, r.path ≠ "documents/compliance-pack") ∧
      (∀ i, post (issueRequest s) = some i → post (documentRequest s w) = none →
        (checkout post s).1
            = { s with
                  pay := { created := true, confirmed := true, ref := w.prop "referenceId" }
                  issued := true } ∧
          (checkout post s).1.docLink = s.docLink ∧
          (checkout post s).2
            = [paymentRequest s, webhookRequest c, issueRequest s, documentRequest s w]) := by
  constructor
  · intro hi
    rw [checkout_issue_fails hc hw hi]
    refine ⟨rfl, rfl, rfl, rfl, ?_⟩
    intro r hr
    simp only [List.mem_cons, List.mem_singleton, List.not_mem_nil, or_false] at hr
    rcases hr with rfl | rfl | rfl <;> simp [paymentRequest, webhookRequest, issueRequest]
  · intro i hi hd
    rw [checkout_document_fails hc hw hi hd]
    exact ⟨rfl, rfl, rfl⟩

/-- Witness of C6 in a session ready for checkout: with the issuance call failing the
payment is confirmed and nothing is issued; with the document call failing the shares
are issued and the link is absent. -/
theorem checkout_no_rollback_witness :
    ((checkout (stubApi ["captable/issue"]) sampleReady).1.pay
          = { created := true, confirmed := true, ref := .str "ref-payments/webhook" } ∧
        (checkout (stubApi ["captable/issue"]) sampleReady).1.issued = false ∧
        (checkout (stubApi ["captable/issue"]) sampleReady).1.docLink = .null) ∧
      ((checkout (stubApi ["documents/compliance-pack"]) sampleReady).1.pay.confirmed = true ∧
        (checkout (stubApi ["documents/compliance-pack"]) sampleReady).1.issued = true ∧
        (checkout (stubApi ["documents/compliance-pack"]) sampleReady).1.docLink = .null) := by
  have hs : sampleReady.issued = false ∧ sampleReady.docLink = .null := by
    simp [sampleReady, readySession, filledForm, startAccredit, startKyc, stubApi,
      kycRequest, accreditRequest, editAmount, editEmail, editName, initialState]
  have h1 := (checkout_no_rollback (stubApi ["captable/issue"]) sampleReady
    (stubResponse "payments/checkout")
    (stubResponse "payments/webhook")
    (by simp [stubApi, paymentRequest]) (by simp [stubApi, webhookRequest])).1
    (by simp [stubApi, issueRequest])
  have h2 := (checkout_no_rollback (stubApi ["documents/compliance-pack"]) sampleReady
    (stubResponse "payments/checkout")
    (stubResponse "payments/webhook")
    (by simp [stubApi, paymentRequest]) (by simp [stubApi, webhookRequest])).2
    (stubResponse "captable/issue")
    (by simp [stubApi, issueRequest]) (by simp [stubApi, documentRequest])
  refine ⟨⟨?_, ?_, ?_⟩, ?_, ?_, ?_⟩
  · rw [h1.1]; rfl
  · rw [h1.2.1]; exact hs.1
  · rw [h1.2.2.1]; exact hs.2
  · rw [h2.1]
  · rw [h2.1]
  · rw [h2.2.1]; exact hs.2

/-- C5: the full happy path. From the initial state with a non-empty name and email and
an amount of at least the minimum, `startKyc`, `startAccredit` and then `checkout`, with
every external call succeeding, end in a state where KYC is passed, accreditation
verified, the payment created and confirmed and the shares issued; `pay.ref` is the
reference id of the webhook response, and the document link is the `downloadUrl` of the
compliance-pack response when that response has one (a truthy value) and null when it
has none. -/
theorem happy_path (post : Api) (name email : String) (amount : ℚ)
    (hn : name ≠ "") (he : email ≠ "") (ha : 5000 ≤ amount) (hall : ∀ r, post r ≠ none) :
    ∃ c w d : Response,
      post (paymentRequest (readySession post name email amount)) = some c ∧
      post (webhookRequest c) = some w ∧
      post (documentRequest (readySession post name email amount) w) = some d ∧
      checkoutDisabled (readySession post name email amount) = false ∧
      (checkout post (readySession post name email amount)).1.kyc.passed = true ∧
      (checkout post (readySession post name email amount)).1.acc.verified = true ∧
      (checkout post (readySession post name email amount)).1.pay.created = true ∧
      (checkout post (readySession post name email amount)).1.pay.confirmed = true ∧
      (checkout post (readySession post name email amount)).1.issued = true ∧
      (checkout post (readySession post name email amount)).1.pay.ref = w.prop "referenceId" ∧
      (truthy (d.prop "downloadUrl") = true →
        (checkout post (readySession post name email amount)).1.docLink
          = d.prop "downloadUrl") ∧
      (truthy (d.prop "downloadUrl") = false →
        (checkout post (readySession post name email amount)).1.docLink = .null) ∧
      ((checkout post (readySession post name email amount)).2.map Request.path
        = ["payments/checkout", "payments/webhook", "captable/issue",
            "documents/compliance-pack"]) := by
  obtain ⟨k, hk⟩ := Option.ne_none_iff_exists'.mp (hall (kycRequest (filledForm name email amount)))
  obtain ⟨a, hac⟩ := Option.ne_none_iff_exists'.mp
    (hall (accreditRequest (startKyc post (filledForm name email amount))))
  have hready : readySession post name email amount
      = { filledForm name email amount with
            kyc := { passed := true, ref := k.prop "referenceId" }
            acc := { verified := true, ref := a.prop "referenceId" } } := by
    unfold readySession
    rw [startAccredit_ok hac, startKyc_ok hk]
  have hamt : numOr (some amount) 0 = amount := by
    have h0 : amount ≠ 0 := by
      intro h
      rw [h] at ha
      norm_num at ha
    simp [numOr, h0]
  have hgate : checkoutDisabled (readySession post name email amount) = false := by
    have ht : truthy (canCheckout (readySession post name email amount)) = true := by
      rw [truthy_canCheckout_iff, hready]
      simp [filledForm, editAmount, editEmail, editName, hamt, hn, he, ha]
    simp [checkoutDisabled, jsNot, ht]
  obtain ⟨c, hc⟩ := Option.ne_none_iff_exists'.mp
    (hall (paymentRequest (readySession post name email amount)))
  obtain ⟨w, hw⟩ := Option.ne_none_iff_exists'.mp (hall (webhookRequest c))
  obtain ⟨i, hi⟩ := Option.ne_none_iff_exists'.mp
    (hall (issueRequest (readySession post name email amount)))
  obtain ⟨d, hd⟩ := Option.ne_none_iff_exists'.mp
    (hall (documentRequest (readySession post name email amount) w))
  refine ⟨c, w, d, hc, hw, hd, hgate, ?_⟩
  rw [checkout_all_succeed hc hw hi hd]
  refine ⟨?_, ?_, rfl, rfl, rfl, rfl, ?_, ?_, ?_⟩
  · rw [hready]
  · rw [hready]
  · intro ht
    simp [jsOr, ht]
  · intro ht
    simp [jsOr, ht]
  · simp [paymentRequest, webhookRequest, issueRequest, documentRequest]

/-- Witness of C5: name Ada, amount 5000, an API that answers every call. -/
theorem happy_path_witness :
    (checkout (stubApi []) sampleReady).1.issued = true ∧
      (checkout (stubApi []) sampleReady).1.pay.ref = .str "ref-payments/webhook" ∧
      (checkout (stubApi []) sampleReady).1.docLink
        = .str "https://files.example/pack.pdf" := by
  obtain ⟨c, w, d, hc, hw, hd, -, -, -, -, -, h5, h6, h7, -, -⟩ :=
    happy_path (stubApi []) "Ada" "ada@example.org" 5000 (by decide) (by decide)
      (by norm_num) (by intro r; simp [stubApi])
  have hw' : w = (stubResponse "payments/webhook") := by
    simpa [stubApi, webhookRequest] using hw.symm
  have hd' : d = (stubResponse "documents/compliance-pack") := by
    simpa [stubApi, documentRequest] using hd.symm
  subst hw' hd'
  exact ⟨h5, h6, h7 rfl⟩

/-! ## The workflow invariant -/

/-- C10: in every state reachable from the initial state by input edits, `startKyc`,
`startAccredit` and `checkout` (fired only while the control is enabled, each call
succeeding or failing), `pay.created = pay.confirmed`, a document link implies issued,
issued implies payment confirmed, and payment confirmed implies KYC passed and
accreditation verified; and over any sequence of steps none of the four flags goes from
true back to false. -/
theorem workflow_invariant :
    (∀ s, Reachable s →
        s.pay.created = s.pay.confirmed ∧
          (s.docLink ≠ .null → s.issued = true) ∧
          (s.issued = true → s.pay.confirmed = true) ∧
          (s.pay.confirmed = true → s.kyc.passed = true ∧ s.acc.verified = true)) ∧
      (∀ s t, Relation.ReflTransGen Step s t →
        (s.kyc.passed = true → t.kyc.passed = true) ∧
          (s.acc.verified = true → t.acc.verified = true) ∧
          (s.pay.confirmed = true → t.pay.confirmed = true) ∧
          (s.issued = true → t.issued = true)) :=
  ⟨fun _ h => reachable_inv h, fun _ _ h => steps_noReset h⟩

/-- Witness of C10: the state after a KYC check from the initial state is reachable, has
no payment, and every later state still has KYC passed. -/
theorem workflow_invariant_witness :
    (startKyc (stubApi []) initialState).pay.created
        = (startKyc (stubApi []) initialState).pay.confirmed ∧
      ((startKyc (stubApi []) initialState).kyc.passed = true →
        (editName (startKyc (stubApi []) initialState) "Ada").kyc.passed = true) :=
  ⟨(workflow_invariant.1 _ (Reachable.step Reachable.init (Step.kyc _ _))).1,
    (workflow_invariant.2 _ _ (Relation.ReflTransGen.single (Step.name _ _))).1⟩

end CryptoRaise
